import Mathlib

/-!
Verification development for the empress-core ECS runtime.

The entity/component layer (`ComponentCollection`, `Entity`,
`ComponentsRaritySorter`, `EntityStorage`, `compileFilter`) is embedded as
pure Lean functions.  A component is identified by its runtime constructor
in the source; here a component is modelled by its type tag (a natural
number), since every operation of the source only inspects type identity.
The process-global `ComponentsRaritySorter` static map is threaded
explicitly as a `RarityMap` value.  Fallible operations return `Except`.

The execution layer (`ExecutionQueue.execute`, `ExecutionQueue.stop`,
`ExecutionController`) is embedded as a deterministic interpreter over an
explicit schedule of external events (stop / pause / resume / promise
settlement) delivered at the suspension points of the single-threaded
JavaScript semantics.
-/

/-- Components are keyed by runtime type identity in the source; we model a
component type as a natural number tag. -/
abbrev ComponentType := Nat

/-- A component instance, collapsed to its type tag: no operation of the
embedded code inspects anything but the constructor. -/
abbrev Component := Nat

/-- Embeds `ComponentCollection` (src/src/data/entity/component-collection.ts):
an ordered list of components. -/
structure ComponentCollection where
  items : List Component
deriving Repr, DecidableEq

/-- `ComponentCollection.get`: first item whose constructor matches. -/
def ComponentCollection.get (cc : ComponentCollection) (t : ComponentType) : Option Component :=
  cc.items.find? (fun c => c == t)

/-- `ComponentCollection.has`: truthiness of `get`. -/
def ComponentCollection.has (cc : ComponentCollection) (t : ComponentType) : Bool :=
  (cc.get t).isSome

/-- `ComponentCollection.set`: push, no duplicate check. -/
def ComponentCollection.set (cc : ComponentCollection) (c : Component) : ComponentCollection :=
  ⟨cc.items ++ [c]⟩

/-- `ComponentCollection.delete`: if present, keep items of other
constructors; returns the collection state after the call. -/
def ComponentCollection.del (cc : ComponentCollection) (t : ComponentType) : ComponentCollection :=
  if (cc.get t).isSome then ⟨cc.items.filter (fun c => c != t)⟩ else cc

/-- `ComponentCollection.clear`. -/
def ComponentCollection.clear (_cc : ComponentCollection) : ComponentCollection :=
  ⟨[]⟩

/-- Embeds the JavaScript `Map<ComponentType, number>` backing
`ComponentsRaritySorter` (src/unnamed/part_005): insertion-ordered
association list with unique keys. -/
structure RarityMap where
  entries : List (ComponentType × Nat)
deriving Repr, DecidableEq

/-- Empty map. -/
def RarityMap.empty : RarityMap := ⟨[]⟩

/-- `Map.prototype.set`: update in place if the key exists, else append. -/
def setEntries : List (ComponentType × Nat) → ComponentType → Nat → List (ComponentType × Nat)
  | [], k, v => [(k, v)]
  | p :: rest, k, v => if p.1 == k then (k, v) :: rest else p :: setEntries rest k v

/-- `Map.prototype.get`. -/
def RarityMap.get (m : RarityMap) (k : ComponentType) : Option Nat :=
  (m.entries.find? (fun p => p.1 == k)).map (·.2)

/-- `Map.prototype.set`. -/
def RarityMap.set (m : RarityMap) (k : ComponentType) (v : Nat) : RarityMap :=
  ⟨setEntries m.entries k v⟩

/-- `Map.prototype.delete`. -/
def RarityMap.del (m : RarityMap) (k : ComponentType) : RarityMap :=
  ⟨m.entries.filter (fun p => p.1 != k)⟩

/-- `Map.prototype.has`. -/
def RarityMap.has (m : RarityMap) (k : ComponentType) : Bool :=
  (m.get k).isSome

/-- `ComponentsRaritySorter.increment`. -/
def ComponentsRaritySorter.increment (m : RarityMap) (component : ComponentType) : RarityMap :=
  let currentCount := (m.get component).getD 0
  m.set component (currentCount + 1)

/-- `ComponentsRaritySorter.decrement`: deletes the entry when the count
would reach zero. -/
def ComponentsRaritySorter.decrement (m : RarityMap) (component : ComponentType) : RarityMap :=
  let currentCount := (m.get component).getD 0
  if currentCount > 1 then m.set component (currentCount - 1) else m.del component

/-- `ComponentsRaritySorter.rarity`: stored count, zero when absent. -/
def ComponentsRaritySorter.rarity (m : RarityMap) (component : ComponentType) : Nat :=
  (m.get component).getD 0

/-- `ComponentsRaritySorter.sortByRarity`: stable sort ascending by rarity
(`Array.prototype.sort` is stable; modelled by insertion sort). -/
def ComponentsRaritySorter.sortByRarity (m : RarityMap) (components : List ComponentType) :
    List ComponentType :=
  List.insertionSort
    (fun a b => ComponentsRaritySorter.rarity m a ≤ ComponentsRaritySorter.rarity m b) components

/-- Error taxonomy of the entity/component layer (the source throws plain
`Error`s distinguished by message). -/
inductive EntityError
  | duplicateComponent
  | componentNotFound
  | componentState
deriving Repr, DecidableEq

/-- Embeds `ComponentFilter` (src/src/data/entity-storage/models): `excludes`
is an optional field in the source, hence an `Option` here. -/
structure ComponentFilter where
  includes : List ComponentType
  excludes : Option (List ComponentType) := none
deriving Repr, DecidableEq

/-- Embeds `Entity` (second section of
src/src/data/entity-storage/utils/compile-filter.util.ts): identity, name,
active flag and the two component collections. -/
structure Entity where
  uuid : String
  name : String := "Entity"
  active : Bool := true
  components : ComponentCollection := ⟨[]⟩
  disabledComponents : ComponentCollection := ⟨[]⟩
deriving Repr, DecidableEq

/-- `Entity.hasComponents`: every listed type is present in the enabled
collection. -/
def Entity.hasComponents (e : Entity) (types : List ComponentType) : Bool :=
  types.all (fun t => (e.components.get t).isSome)

/-- `Entity.addComponent`: duplicate check over both collections first, then
insertion into the requested collection with the rarity-map side effect
(increment when enabled, decrement when added disabled). -/
def Entity.addComponent (e : Entity) (component : Component) (enabled : Bool) (m : RarityMap) :
    Except EntityError (Entity × RarityMap) :=
  if e.components.has component || e.disabledComponents.has component then
    .error .duplicateComponent
  else if enabled then
    .ok ({ e with components := e.components.set component },
         ComponentsRaritySorter.increment m component)
  else
    .ok ({ e with disabledComponents := e.disabledComponents.set component },
         ComponentsRaritySorter.decrement m component)

/-- `Entity.getComponent`: enabled collection only. -/
def Entity.getComponent (e : Entity) (t : ComponentType) : Except EntityError Component :=
  match e.components.get t with
  | some c => .ok c
  | none => .error .componentNotFound

/-- `Entity.removeComponent`: removes from whichever collection holds the
type, then decrements the rarity map; throws when absent from both. -/
def Entity.removeComponent (e : Entity) (t : ComponentType) (m : RarityMap) :
    Except EntityError (Entity × RarityMap) :=
  if e.components.has t then
    .ok ({ e with components := e.components.del t }, ComponentsRaritySorter.decrement m t)
  else if e.disabledComponents.has t then
    .ok ({ e with disabledComponents := e.disabledComponents.del t },
         ComponentsRaritySorter.decrement m t)
  else
    .error .componentNotFound

/-- `Entity.enableComponent`: moves the instance from the disabled to the
enabled collection and increments the rarity map. -/
def Entity.enableComponent (e : Entity) (t : ComponentType) (m : RarityMap) :
    Except EntityError (Entity × RarityMap) :=
  match e.disabledComponents.get t with
  | none => .error .componentState
  | some comp =>
    .ok ({ e with disabledComponents := e.disabledComponents.del t,
                  components := e.components.set comp },
         ComponentsRaritySorter.increment m t)

/-- `Entity.disableComponent`: moves the instance from the enabled to the
disabled collection and decrements the rarity map. -/
def Entity.disableComponent (e : Entity) (t : ComponentType) (m : RarityMap) :
    Except EntityError (Entity × RarityMap) :=
  match e.components.get t with
  | none => .error .componentState
  | some comp =>
    .ok ({ e with components := e.components.del t,
                  disabledComponents := e.disabledComponents.set comp },
         ComponentsRaritySorter.decrement m t)

/-- `Entity.disableAllComponents`: push every enabled item into the disabled
collection (decrementing the rarity map per item), then clear the source. -/
def Entity.disableAllComponents (e : Entity) (m : RarityMap) : Entity × RarityMap :=
  let r := e.components.items.foldl
    (fun (acc : ComponentCollection × RarityMap) comp =>
      (acc.1.set comp, ComponentsRaritySorter.decrement acc.2 comp))
    (e.disabledComponents, m)
  ({ e with components := ⟨[]⟩, disabledComponents := r.1 }, r.2)

/-- `Entity.enableAllComponents`: push every disabled item into the enabled
collection (incrementing the rarity map per item), then clear the source. -/
def Entity.enableAllComponents (e : Entity) (m : RarityMap) : Entity × RarityMap :=
  let r := e.disabledComponents.items.foldl
    (fun (acc : ComponentCollection × RarityMap) comp =>
      (acc.1.set comp, ComponentsRaritySorter.increment acc.2 comp))
    (e.components, m)
  ({ e with components := r.1, disabledComponents := ⟨[]⟩ }, r.2)

/-- `Entity.isSatisfiedFilter`:
`hasComponents(includes) && (!excludes.length || !hasComponents(excludes))`. -/
def Entity.isSatisfiedFilter (e : Entity) (filter : ComponentFilter) : Bool :=
  let includes := filter.includes
  let excludes := filter.excludes.getD []
  e.hasComponents includes && (excludes.isEmpty || !(e.hasComponents excludes))

/-- Embeds `compileFilter`
(src/src/data/entity-storage/utils/compile-filter.util.ts): the `excludes`
argument is optional; note that in the source the guard is JavaScript
truthiness of the array (`excludes && entity.hasComponents(excludes)`), so a
present-but-empty array is still checked. -/
def compileFilter (includes : List ComponentType) (excludes : Option (List ComponentType))
    (entity : Entity) : Bool :=
  if !(entity.hasComponents includes) then false
  else
    match excludes with
    | some ex => if entity.hasComponents ex then false else true
    | none => true

/-- Embeds `Filtered` (src/src/data/filtered/filtered.ts), reduced to the
wrapped ordered entity list. -/
structure Filtered where
  entities : List Entity
deriving Repr, DecidableEq

/-- `Filtered.count`. -/
def Filtered.count (f : Filtered) : Nat := f.entities.length

/-- `Filtered.items`. -/
def Filtered.items (f : Filtered) : List Entity := f.entities

/-- Embeds `EntityStorage` (src/unnamed/part_004): the entity registry in
insertion order (`Map` iteration order). -/
structure EntityStorage where
  entities : List Entity
deriving Repr, DecidableEq

/-- `EntityStorage.getAllEntities`. -/
def EntityStorage.getAllEntities (s : EntityStorage) : List Entity := s.entities

/-- `EntityStorage.getActiveEntities`. -/
def EntityStorage.getActiveEntities (s : EntityStorage) : List Entity :=
  s.entities.filter (·.active)

/-- `EntityStorage.getInactiveEntities`. -/
def EntityStorage.getInactiveEntities (s : EntityStorage) : List Entity :=
  s.entities.filter (fun e => !e.active)

/-- Embeds `EntityStorage.filter`.  The source mutates its argument
(`if (!filter.excludes) filter.excludes = []`); the returned pair carries
the filtered result and the post-call state of the filter argument. -/
def EntityStorage.filter (s : EntityStorage) (filter : ComponentFilter) (withDisabled : Bool)
    (m : RarityMap) : Filtered × ComponentFilter :=
  let allEntities := if withDisabled then s.getAllEntities else s.getActiveEntities
  let filter := if filter.excludes = none then { filter with excludes := some [] } else filter
  let excludesList := filter.excludes.getD []
  if !filter.includes.isEmpty || !excludesList.isEmpty then
    let sortedIncludes := ComponentsRaritySorter.sortByRarity m filter.includes
    let sortedExcludes :=
      if !excludesList.isEmpty then some (ComponentsRaritySorter.sortByRarity m excludesList)
      else none
    (⟨allEntities.filter (compileFilter sortedIncludes sortedExcludes)⟩, filter)
  else
    (⟨allEntities⟩, filter)

/-- Permutation invariance of `List.all`. -/
theorem all_of_perm {α : Type} {l₁ l₂ : List α} (h : l₁.Perm l₂) (p : α → Bool) :
    l₁.all p = l₂.all p := by
  apply Bool.eq_iff_iff.mpr
  simp only [List.all_eq_true]
  constructor
  · intro hall x hx
    exact hall x (h.mem_iff.mpr hx)
  · intro hall x hx
    exact hall x (h.mem_iff.mp hx)

/-- Sorting a type list by rarity does not change `hasComponents`. -/
theorem hasComponents_sortByRarity (e : Entity) (m : RarityMap) (l : List ComponentType) :
    e.hasComponents (ComponentsRaritySorter.sortByRarity m l) = e.hasComponents l :=
  all_of_perm (List.perm_insertionSort _ l) _

/-- Pointwise equality of the compiled predicate (over rarity-sorted type
lists, as `EntityStorage.filter` builds it) with `Entity.isSatisfiedFilter`
of the original filter, in the case the source actually compiles: a
non-empty excludes list is passed sorted, an empty one as `undefined`. -/
theorem compileFilter_eq_isSatisfiedFilter (m : RarityMap) (inc : List ComponentType)
    (exc : List ComponentType) (e : Entity) :
    compileFilter (ComponentsRaritySorter.sortByRarity m inc)
      (if !exc.isEmpty then some (ComponentsRaritySorter.sortByRarity m exc) else none) e =
    e.isSatisfiedFilter ⟨inc, some exc⟩ := by
  unfold compileFilter Entity.isSatisfiedFilter
  simp only [Option.getD_some, hasComponents_sortByRarity]
  cases exc with
  | nil =>
    simp [hasComponents_sortByRarity]
  | cons a t =>
    simp only [List.isEmpty_cons, Bool.not_false, if_pos, hasComponents_sortByRarity]
    cases hi : e.hasComponents inc <;> cases hx : e.hasComponents (a :: t) <;> simp [hi, hx]

/-- A filter with an absent excludes field is satisfied exactly as one with
an explicit empty excludes list. -/
theorem isSatisfiedFilter_none_eq_some_nil (e : Entity) (inc : List ComponentType) :
    e.isSatisfiedFilter ⟨inc, none⟩ = e.isSatisfiedFilter ⟨inc, some []⟩ := rfl

/-- Unfolding equation of `EntityStorage.filter` at an explicit excludes
list. -/
theorem filter_def_some (s : EntityStorage) (wd : Bool) (m : RarityMap)
    (inc exc : List ComponentType) :
    EntityStorage.filter s ⟨inc, some exc⟩ wd m =
      (let base := if wd then s.getAllEntities else s.getActiveEntities
       if !inc.isEmpty || !exc.isEmpty then
         (⟨base.filter (compileFilter (ComponentsRaritySorter.sortByRarity m inc)
             (if !exc.isEmpty then some (ComponentsRaritySorter.sortByRarity m exc) else none))⟩,
          ⟨inc, some exc⟩)
       else (⟨base⟩, ⟨inc, some exc⟩)) := rfl

/-- Unfolding equation of `EntityStorage.filter` at an absent excludes
field: the filter argument is mutated to carry an empty excludes array. -/
theorem filter_def_none (s : EntityStorage) (wd : Bool) (m : RarityMap)
    (inc : List ComponentType) :
    EntityStorage.filter s ⟨inc, none⟩ wd m =
      (let base := if wd then s.getAllEntities else s.getActiveEntities
       if !inc.isEmpty || false then
         (⟨base.filter (compileFilter (ComponentsRaritySorter.sortByRarity m inc) none)⟩,
          ⟨inc, some []⟩)
       else (⟨base⟩, ⟨inc, some []⟩)) := rfl

/-- Characterization of `EntityStorage.filter` for an explicit excludes
list: the result is the base population filtered by
`Entity.isSatisfiedFilter`. -/
theorem filter_items_some (s : EntityStorage) (wd : Bool) (m : RarityMap)
    (inc exc : List ComponentType) :
    (EntityStorage.filter s ⟨inc, some exc⟩ wd m).1.items =
      (if wd then s.getAllEntities else s.getActiveEntities).filter
        (fun e => e.isSatisfiedFilter ⟨inc, some exc⟩) := by
  rw [filter_def_some]
  by_cases hinc : inc.isEmpty <;> by_cases hexc : exc.isEmpty
  · rw [List.isEmpty_iff] at hinc hexc
    subst hinc; subst hexc
    simp [Filtered.items, Entity.isSatisfiedFilter, Entity.hasComponents]
  all_goals
    simp only [hinc, hexc, Bool.not_true, Bool.not_false, Bool.false_or, Bool.or_false,
      Bool.true_or, Bool.or_true, if_true, if_false, Filtered.items]
    refine List.filter_congr (fun e _ => ?_)
    have h := compileFilter_eq_isSatisfiedFilter m inc exc e
    simpa [hexc] using h

/-- Characterization of `EntityStorage.filter` for an absent excludes
field. -/
theorem filter_items_none (s : EntityStorage) (wd : Bool) (m : RarityMap)
    (inc : List ComponentType) :
    (EntityStorage.filter s ⟨inc, none⟩ wd m).1.items =
      (if wd then s.getAllEntities else s.getActiveEntities).filter
        (fun e => e.isSatisfiedFilter ⟨inc, none⟩) := by
  rw [filter_def_none]
  by_cases hinc : inc.isEmpty
  · rw [List.isEmpty_iff] at hinc
    subst hinc
    simp [Filtered.items, Entity.isSatisfiedFilter, Entity.hasComponents]
  · simp only [hinc, Bool.not_false, Bool.true_or, Bool.or_false, if_true, Filtered.items]
    refine List.filter_congr (fun e _ => ?_)
    have h := compileFilter_eq_isSatisfiedFilter m inc [] e
    simpa using h

/-- C2, amended.  `EntityStorage.filter(F, withDisabled)` returns exactly
those entities of the chosen base population (all entities when
`withDisabled` is true, only active entities otherwise) that satisfy
`hasComponents(includes) && (excludes empty or absent || !hasComponents(excludes))`
— that is, `Entity.isSatisfiedFilter` — preserving the base population's
relative order (the result is a `List.filter` of the base population); when
both lists are empty the base population is returned unfiltered.  The
claim's literal predicate `hasComponents(F.includes) && !hasComponents(F.excludes || [])`
is wrong whenever the excludes list is empty, because `hasComponents([])`
is vacuously true; see the counterexample. -/
theorem c2_storage_filter_amended (s : EntityStorage) (f : ComponentFilter) (wd : Bool)
    (m : RarityMap) :
    ((s.filter f wd m).1.items =
      (if wd then s.getAllEntities else s.getActiveEntities).filter
        (fun e => e.isSatisfiedFilter f)) ∧
    (f.includes = [] → f.excludes.getD [] = [] →
      (s.filter f wd m).1.items = (if wd then s.getAllEntities else s.getActiveEntities)) := by
  obtain ⟨inc, exc⟩ := f
  have main : (EntityStorage.filter s ⟨inc, exc⟩ wd m).1.items =
      (if wd then s.getAllEntities else s.getActiveEntities).filter
        (fun e => e.isSatisfiedFilter ⟨inc, exc⟩) := by
    cases exc with
    | none => exact filter_items_none s wd m inc
    | some ex => exact filter_items_some s wd m inc ex
  refine ⟨main, fun hinc hexc => ?_⟩
  rw [main]
  have hpred : ∀ e : Entity, e.isSatisfiedFilter ⟨inc, exc⟩ = true := by
    intro e
    subst hinc
    simp [Entity.isSatisfiedFilter, Entity.hasComponents, hexc]
  calc (if wd then s.getAllEntities else s.getActiveEntities).filter
        (fun e => e.isSatisfiedFilter ⟨inc, exc⟩)
      = (if wd then s.getAllEntities else s.getActiveEntities).filter (fun _ => true) :=
        List.filter_congr (fun e _ => hpred e)
    _ = (if wd then s.getAllEntities else s.getActiveEntities) := List.filter_true _

/-- The base population of `EntityStorage.filter` as claim C2 words it. -/
def basePopulation (s : EntityStorage) (withDisabled : Bool) : List Entity :=
  if withDisabled then s.getAllEntities else s.getActiveEntities

/-- The qualification predicate exactly as claim C2 words it:
`hasComponents(F.includes) && !hasComponents(F.excludes || [])`. -/
def claimC2Predicate (e : Entity) (f : ComponentFilter) : Bool :=
  e.hasComponents f.includes && !(e.hasComponents (f.excludes.getD []))

/-- C2, counterexample.  One active entity holding component type 0 and the
filter `{includes: [0]}` (excludes absent): the code returns the entity,
but the claim's predicate evaluates to false on it (because
`hasComponents([])` is true), so the claimed result would be empty. -/
theorem c2_counterexample :
    ((EntityStorage.filter ⟨[{ uuid := "e1", components := ⟨[0]⟩ }]⟩ ⟨[0], none⟩ false
        RarityMap.empty).1.items =
      [{ uuid := "e1", components := ⟨[0]⟩ }]) ∧
    (claimC2Predicate { uuid := "e1", components := ⟨[0]⟩ } ⟨[0], none⟩ = false) ∧
    ((basePopulation ⟨[{ uuid := "e1", components := ⟨[0]⟩ }]⟩ false).filter
        (fun e => claimC2Predicate e ⟨[0], none⟩) = []) :=
  ⟨rfl, rfl, rfl⟩

/-- C1, code bug, evaluated at the failing input.  Entity `e1` holds only
component type 1 enabled; the filter excludes `[1, 2]`.  The entity holds a
non-empty strict subset of the excludes (type 1 is enabled and excluded),
so per the claim — and per the source's own doc comments ("the entity must
have none of the excludes") — it must not qualify.  But both
`Entity.isSatisfiedFilter` and the predicate built by `compileFilter`
return true, because the code tests `hasComponents(excludes)`, which
requires ALL excluded types to be present before rejecting. -/
theorem c1_exclusion_code_bug :
    (Entity.isSatisfiedFilter { uuid := "e1", components := ⟨[1]⟩ } ⟨[], some [1, 2]⟩ = true) ∧
    (compileFilter [] (some [1, 2]) { uuid := "e1", components := ⟨[1]⟩ } = true) ∧
    (ComponentCollection.has ⟨[1]⟩ 1 = true) ∧ (1 ∈ [1, 2]) :=
  ⟨rfl, rfl, rfl, by simp⟩

/-- C10.  `EntityStorage.filter` mutates its filter argument: when the
excludes field is absent it is set to an empty array on the caller's
object, all other fields unchanged (the record-update equality keeps
`includes` intact). -/
theorem c10_filter_mutates_argument (s : EntityStorage) (f : ComponentFilter) (wd : Bool)
    (m : RarityMap) (h : f.excludes = none) :
    (s.filter f wd m).2 = { f with excludes := some [] } := by
  obtain ⟨inc, exc⟩ := f
  simp only at h
  subst h
  rw [filter_def_none]
  split <;> split <;> rfl

/-- C10, witness. -/
theorem c10_filter_mutates_argument_witness :
    (EntityStorage.filter ⟨[]⟩ ⟨[5], none⟩ true RarityMap.empty).2 =
      { includes := [5], excludes := some [] } :=
  c10_filter_mutates_argument ⟨[]⟩ ⟨[5], none⟩ true RarityMap.empty rfl

/-- C2, witness for the amended theorem's conditional conjunct: with both
lists empty, the (active) base population comes back unfiltered. -/
theorem c2_storage_filter_amended_witness :
    (EntityStorage.filter ⟨[{ uuid := "w" }]⟩ ⟨[], none⟩ false RarityMap.empty).1.items =
      (if false then EntityStorage.getAllEntities ⟨[{ uuid := "w" }]⟩
       else EntityStorage.getActiveEntities ⟨[{ uuid := "w" }]⟩) :=
  (c2_storage_filter_amended ⟨[{ uuid := "w" }]⟩ ⟨[], none⟩ false RarityMap.empty).2 rfl rfl

/-- Presence in a collection is membership of the item list. -/
theorem has_iff_mem (cc : ComponentCollection) (t : ComponentType) :
    cc.has t = true ↔ t ∈ cc.items := by
  simp [ComponentCollection.has, ComponentCollection.get, List.find?_isSome]

/-- Deleting always leaves exactly the items of other types (when the type
is absent the filter is the identity). -/
theorem del_items (cc : ComponentCollection) (t : ComponentType) :
    (cc.del t).items = cc.items.filter (fun c => c != t) := by
  unfold ComponentCollection.del
  split
  · rfl
  · next hnone =>
    have habs : t ∉ cc.items := by
      intro hmem
      exact hnone ((has_iff_mem cc t).mpr hmem)
    exact (List.filter_eq_self.mpr (fun c hc => by
      simp only [bne_iff_ne, ne_eq, decide_eq_true_eq]
      intro hct
      exact habs (hct ▸ hc))).symm

/-- A found component matches the searched type (in the model a component
is its type tag). -/
theorem get_eq_some (cc : ComponentCollection) (t : ComponentType) (c : Component)
    (h : cc.get t = some c) : c = t := by
  have := List.find?_some h
  simpa using this

/-- The move loops of `enableAllComponents` / `disableAllComponents` append
the moved items in order to the destination collection. -/
theorem foldl_move_items (g : RarityMap → Component → RarityMap) (l : List Component) :
    ∀ (cc : ComponentCollection) (m : RarityMap),
    ((l.foldl (fun (acc : ComponentCollection × RarityMap) comp =>
        (acc.1.set comp, g acc.2 comp)) (cc, m)).1).items = cc.items ++ l := by
  induction l with
  | nil => intro cc m; simp
  | cons c t ih =>
    intro cc m
    simpa [ComponentCollection.set] using ih (cc.set c) (g m c)

/-- Claim C4's invariant: no component type occurs in both the enabled and
the disabled collection, and none occurs twice within a collection —
equivalently, the concatenation of the two item lists has no duplicates. -/
def Entity.inv (e : Entity) : Prop :=
  (e.components.items ++ e.disabledComponents.items).Nodup

/-- One entity-mutating operation, as claim C4 ranges over them. -/
inductive EOp
  | add (c : Component) (enabled : Bool)
  | remove (t : ComponentType)
  | enable (t : ComponentType)
  | disable (t : ComponentType)
  | enableAll
  | disableAll
deriving Repr, DecidableEq

/-- One step of the operation sequence: a thrown error propagates in the
source before any mutation (check-then-act), so on `error` the state is the
unchanged previous state. -/
def entityStep (s : Entity × RarityMap) (op : EOp) : Entity × RarityMap :=
  match op with
  | .add c b => match s.1.addComponent c b s.2 with | .ok r => r | .error _ => s
  | .remove t => match s.1.removeComponent t s.2 with | .ok r => r | .error _ => s
  | .enable t => match s.1.enableComponent t s.2 with | .ok r => r | .error _ => s
  | .disable t => match s.1.disableComponent t s.2 with | .ok r => r | .error _ => s
  | .enableAll => s.1.enableAllComponents s.2
  | .disableAll => s.1.disableAllComponents s.2

/-- Run a sequence of operations from a given entity and rarity map. -/
def runOps (e : Entity) (m : RarityMap) (ops : List EOp) : Entity × RarityMap :=
  ops.foldl entityStep (e, m)

/-- `addComponent` preserves the exclusivity invariant. -/
theorem inv_add (e : Entity) (c : Component) (b : Bool) (m : RarityMap) (h : e.inv) :
    (entityStep (e, m) (.add c b)).1.inv := by
  show (match e.addComponent c b m with | .ok r => r | .error _ => (e, m)).1.inv
  unfold Entity.addComponent
  by_cases hdup : (e.components.has c || e.disabledComponents.has c) = true
  · rw [if_pos hdup]
    exact h
  · have hc : c ∉ e.components.items := by
      intro hm
      exact hdup (by simp [(has_iff_mem _ _).mpr hm])
    have hd : c ∉ e.disabledComponents.items := by
      intro hm
      exact hdup (by simp [(has_iff_mem _ _).mpr hm])
    rw [if_neg hdup]
    cases b with
    | true =>
      show ((e.components.items ++ [c]) ++ e.disabledComponents.items).Nodup
      have hperm : ((e.components.items ++ [c]) ++ e.disabledComponents.items).Perm
          (c :: (e.components.items ++ e.disabledComponents.items)) := by
        rw [List.append_assoc]
        exact List.perm_middle
      rw [hperm.nodup_iff, List.nodup_cons, List.mem_append]
      refine ⟨fun hmem => ?_, h⟩
      exact hmem.elim hc hd
    | false =>
      show (e.components.items ++ (e.disabledComponents.items ++ [c])).Nodup
      have hperm : (e.components.items ++ (e.disabledComponents.items ++ [c])).Perm
          (c :: (e.components.items ++ e.disabledComponents.items)) := by
        rw [← List.append_assoc]
        exact List.perm_append_singleton c _
      rw [hperm.nodup_iff, List.nodup_cons, List.mem_append]
      refine ⟨fun hmem => ?_, h⟩
      exact hmem.elim hc hd

/-- `removeComponent` preserves the exclusivity invariant. -/
theorem inv_remove (e : Entity) (t : ComponentType) (m : RarityMap) (h : e.inv) :
    (entityStep (e, m) (.remove t)).1.inv := by
  show (match e.removeComponent t m with | .ok r => r | .error _ => (e, m)).1.inv
  unfold Entity.removeComponent
  by_cases h1 : e.components.has t = true
  · rw [if_pos h1]
    show ((e.components.del t).items ++ e.disabledComponents.items).Nodup
    rw [del_items]
    exact h.sublist (List.Sublist.append (List.filter_sublist _) (List.Sublist.refl _))
  · rw [if_neg h1]
    by_cases h2 : e.disabledComponents.has t = true
    · rw [if_pos h2]
      show (e.components.items ++ (e.disabledComponents.del t).items).Nodup
      rw [del_items]
      exact h.sublist (List.Sublist.append (List.Sublist.refl _) (List.filter_sublist _))
    · rw [if_neg h2]
      exact h

/-- `enableComponent` preserves the exclusivity invariant. -/
theorem inv_enable (e : Entity) (t : ComponentType) (m : RarityMap) (h : e.inv) :
    (entityStep (e, m) (.enable t)).1.inv := by
  show (match e.enableComponent t m with | .ok r => r | .error _ => (e, m)).1.inv
  unfold Entity.enableComponent
  cases hget : e.disabledComponents.get t with
  | none => exact h
  | some comp =>
    have hct : comp = t := get_eq_some _ _ _ hget
    subst hct
    show ((e.components.items ++ [comp]) ++ (e.disabledComponents.del comp).items).Nodup
    rw [del_items]
    rw [Entity.inv, List.nodup_append] at h
    obtain ⟨hcN, hdN, hdisj⟩ := h
    have hmemd : comp ∈ e.disabledComponents.items :=
      List.mem_of_find?_eq_some hget
    have hncomp : comp ∉ e.components.items := fun hm => hdisj hm hmemd
    rw [List.nodup_append]
    refine ⟨?_, hdN.filter _, ?_⟩
    · rw [List.nodup_append]
      refine ⟨hcN, List.nodup_singleton _, ?_⟩
      intro a ha hat
      rw [List.mem_singleton] at hat
      subst hat
      exact hncomp ha
    · intro a ha haf
      have hadis : a ∈ e.disabledComponents.items := List.mem_of_mem_filter haf
      rcases List.mem_append.mp ha with hac | hat
      · exact hdisj hac hadis
      · rw [List.mem_singleton] at hat
        subst hat
        have hpa := List.of_mem_filter haf
        simp at hpa

/-- `disableComponent` preserves the exclusivity invariant. -/
theorem inv_disable (e : Entity) (t : ComponentType) (m : RarityMap) (h : e.inv) :
    (entityStep (e, m) (.disable t)).1.inv := by
  show (match e.disableComponent t m with | .ok r => r | .error _ => (e, m)).1.inv
  unfold Entity.disableComponent
  cases hget : e.components.get t with
  | none => exact h
  | some comp =>
    have hct : comp = t := get_eq_some _ _ _ hget
    subst hct
    show ((e.components.del comp).items ++ (e.disabledComponents.items ++ [comp])).Nodup
    rw [del_items]
    rw [Entity.inv, List.nodup_append] at h
    obtain ⟨hcN, hdN, hdisj⟩ := h
    have hmemc : comp ∈ e.components.items :=
      List.mem_of_find?_eq_some hget
    have hndis : comp ∉ e.disabledComponents.items := fun hm => hdisj hmemc hm
    rw [List.nodup_append]
    refine ⟨hcN.filter _, ?_, ?_⟩
    · rw [List.nodup_append]
      refine ⟨hdN, List.nodup_singleton _, ?_⟩
      intro a ha hat
      rw [List.mem_singleton] at hat
      subst hat
      exact hndis ha
    · intro a haf ha
      have hacomp : a ∈ e.components.items := List.mem_of_mem_filter haf
      rcases List.mem_append.mp ha with had | hat
      · exact hdisj hacomp had
      · rw [List.mem_singleton] at hat
        subst hat
        have hpa := List.of_mem_filter haf
        simp at hpa

/-- `enableAllComponents` preserves the exclusivity invariant. -/
theorem inv_enableAll (e : Entity) (m : RarityMap) (h : e.inv) :
    (entityStep (e, m) EOp.enableAll).1.inv := by
  show (((e.disabledComponents.items.foldl
      (fun (acc : ComponentCollection × RarityMap) comp =>
        (acc.1.set comp, ComponentsRaritySorter.increment acc.2 comp))
      (e.components, m)).1).items ++ ([] : List Component)).Nodup
  rw [foldl_move_items, List.append_nil]
  exact h

/-- `disableAllComponents` preserves the exclusivity invariant. -/
theorem inv_disableAll (e : Entity) (m : RarityMap) (h : e.inv) :
    (entityStep (e, m) EOp.disableAll).1.inv := by
  show (([] : List Component) ++ ((e.components.items.foldl
      (fun (acc : ComponentCollection × RarityMap) comp =>
        (acc.1.set comp, ComponentsRaritySorter.decrement acc.2 comp))
      (e.disabledComponents, m)).1).items).Nodup
  rw [foldl_move_items, List.nil_append]
  exact List.perm_append_comm.nodup_iff.mp h

/-- Every single operation preserves the exclusivity invariant. -/
theorem inv_step (s : Entity × RarityMap) (op : EOp) (h : s.1.inv) :
    (entityStep s op).1.inv := by
  obtain ⟨e, m⟩ := s
  cases op with
  | add c b => exact inv_add e c b m h
  | remove t => exact inv_remove e t m h
  | enable t => exact inv_enable e t m h
  | disable t => exact inv_disable e t m h
  | enableAll => exact inv_enableAll e m h
  | disableAll => exact inv_disableAll e m h

/-- Invariant preservation along any operation sequence. -/
theorem runOps_inv (ops : List EOp) :
    ∀ (s : Entity × RarityMap), s.1.inv → (ops.foldl entityStep s).1.inv := by
  induction ops with
  | nil => intro s h; exact h
  | cons op rest ih =>
    intro s h
    exact ih (entityStep s op) (inv_step s op h)

/-- C4.  For every entity (every entity starts with empty collections) and
every sequence of add / remove / enable / disable / enableAll / disableAll
operations, no component type is ever present in both the enabled and the
disabled collection, and none is duplicated within one collection
(`Entity.inv`); and `addComponent` of a type already present in either
collection always fails with the duplicate-component error — and, the step
semantics being check-then-act, the state on an error is the unchanged
previous state. -/
theorem c4_collection_exclusivity :
    (∀ (uuid name : String) (m : RarityMap) (ops : List EOp),
      (runOps { uuid := uuid, name := name } m ops).1.inv) ∧
    (∀ (e : Entity) (c : Component) (b : Bool) (m : RarityMap),
      (e.components.has c || e.disabledComponents.has c) = true →
      e.addComponent c b m = .error .duplicateComponent) := by
  constructor
  · intro uuid name m ops
    exact runOps_inv ops ({ uuid := uuid, name := name }, m) List.nodup_nil
  · intro e c b m hdup
    unfold Entity.addComponent
    rw [if_pos hdup]

/-- C4, witness: a concrete run of all six operation kinds keeps the
invariant, and adding component type 3 to an entity already holding it
(disabled) fails with the duplicate error. -/
theorem c4_collection_exclusivity_witness :
    (runOps { uuid := "w", name := "n" } RarityMap.empty
      [.add 3 true, .add 4 false, .disable 3, .enable 4, .enableAll, .remove 4,
       .disableAll]).1.inv ∧
    Entity.addComponent { uuid := "w", name := "n", disabledComponents := ⟨[3]⟩ } 3 true
      RarityMap.empty = .error .duplicateComponent :=
  ⟨c4_collection_exclusivity.1 "w" "n" RarityMap.empty
      [.add 3 true, .add 4 false, .disable 3, .enable 4, .enableAll, .remove 4, .disableAll],
   c4_collection_exclusivity.2 { uuid := "w", name := "n", disabledComponents := ⟨[3]⟩ } 3 true
      RarityMap.empty (by decide)⟩

/-- `Map.set` stores the given value at the given key. -/
theorem get_setEntries (k v : Nat) : ∀ (l : List (ComponentType × Nat)),
    RarityMap.get ⟨setEntries l k v⟩ k = some v := by
  intro l
  induction l with
  | nil => simp [RarityMap.get, setEntries]
  | cons p rest ih =>
    by_cases hp : (p.1 == k) = true
    · simp [RarityMap.get, setEntries, hp, List.find?]
    · rw [Bool.not_eq_true] at hp
      simpa [RarityMap.get, setEntries, hp, List.find?] using ih

/-- Searching for a key in entries filtered to other keys finds nothing. -/
theorem find?_filter_ne (k : ComponentType) (l : List (ComponentType × Nat)) :
    (l.filter (fun p => p.1 != k)).find? (fun p => p.1 == k) = none := by
  rw [List.find?_eq_none]
  intro x hx
  have hne := List.of_mem_filter hx
  simp only [bne_iff_ne, ne_eq] at hne
  simpa using hne

/-- `Map.delete` removes the key. -/
theorem get_del (m : RarityMap) (k : ComponentType) : (m.del k).get k = none := by
  simp [RarityMap.del, RarityMap.get, find?_filter_ne]

/-- Incrementing raises the rarity by one. -/
theorem rarity_increment (m : RarityMap) (t : ComponentType) :
    ComponentsRaritySorter.rarity (ComponentsRaritySorter.increment m t) t =
      ComponentsRaritySorter.rarity m t + 1 := by
  simp [ComponentsRaritySorter.increment, ComponentsRaritySorter.rarity, RarityMap.set,
    get_setEntries]

/-- Decrementing lowers the rarity by one (to zero at zero). -/
theorem rarity_decrement (m : RarityMap) (t : ComponentType) :
    ComponentsRaritySorter.rarity (ComponentsRaritySorter.decrement m t) t =
      ComponentsRaritySorter.rarity m t - 1 := by
  unfold ComponentsRaritySorter.decrement
  by_cases hgt : (m.get t).getD 0 > 1
  · rw [if_pos hgt]
    simp [ComponentsRaritySorter.rarity, RarityMap.set, get_setEntries]
  · rw [if_neg hgt]
    have h0 : ComponentsRaritySorter.rarity m t ≤ 1 := by
      simpa [ComponentsRaritySorter.rarity] using Nat.le_of_not_lt hgt
    simp [ComponentsRaritySorter.rarity, get_del]
    omega

/-- A decrement at rarity at most one deletes the entry outright. -/
theorem decrement_has_false (m : RarityMap) (t : ComponentType)
    (h : ComponentsRaritySorter.rarity m t ≤ 1) :
    (ComponentsRaritySorter.decrement m t).has t = false := by
  unfold ComponentsRaritySorter.decrement
  rw [if_neg (by simpa [ComponentsRaritySorter.rarity] using Nat.not_lt.mpr h)]
  simp [RarityMap.has, get_del]

/-- An absent entry has rarity zero. -/
theorem rarity_zero_of_has_false (m : RarityMap) (t : ComponentType)
    (h : m.has t = false) : ComponentsRaritySorter.rarity m t = 0 := by
  unfold RarityMap.has at h
  unfold ComponentsRaritySorter.rarity
  cases hg : m.get t with
  | none => rfl
  | some v => rw [hg] at h; simp at h

/-- A freshly constructed entity (the `Entity` constructor starts with two
empty collections). -/
def freshEntity (n : Nat) : Entity := { uuid := toString n }

/-- Rarity map after N distinct fresh entities each called
`addComponent(new T(), true)`, threading the process-global tracker. -/
def addPhase (t : ComponentType) : Nat → RarityMap
  | 0 => RarityMap.empty
  | n + 1 =>
    match (freshEntity n).addComponent t true (addPhase t n) with
    | .ok r => r.2
    | .error _ => addPhase t n

/-- The entity state produced by the n-th add of the scenario. -/
def addedEntity (t : ComponentType) (n : Nat) : Entity :=
  match (freshEntity n).addComponent t true (addPhase t n) with
  | .ok r => r.1
  | .error _ => freshEntity n

/-- Rarity map after one of the N holders disables its T component. -/
def disablePhase (t : ComponentType) (N : Nat) : RarityMap :=
  match (addedEntity t 0).disableComponent t (addPhase t N) with
  | .ok r => r.2
  | .error _ => addPhase t N

/-- The entity state of the holder that disabled its T component. -/
def disabledEntity (t : ComponentType) (N : Nat) : Entity :=
  match (addedEntity t 0).disableComponent t (addPhase t N) with
  | .ok r => r.1
  | .error _ => addedEntity t 0

/-- The rarity-map effect of one `removeComponent` call. -/
def removeStep (e : Entity) (t : ComponentType) (m : RarityMap) : RarityMap :=
  match e.removeComponent t m with
  | .ok r => r.2
  | .error _ => m

/-- The remaining k enabled holders (entities k, k-1, …, 1) each remove
their T component. -/
def removeLoop (t : ComponentType) : Nat → RarityMap → RarityMap
  | 0, m => m
  | k + 1, m => removeLoop t k (removeStep (addedEntity t (k + 1)) t m)

/-- Rarity map after every entity of the scenario removed its T component
(the disabled holder first, then the remaining N-1 enabled holders). -/
def removePhase (t : ComponentType) (N : Nat) : RarityMap :=
  removeLoop t (N - 1) (removeStep (disabledEntity t N) t (disablePhase t N))

/-- The n-th add produces an entity holding exactly T enabled. -/
theorem addedEntity_eq (t : ComponentType) (n : Nat) :
    addedEntity t n = { uuid := toString n, components := ⟨[t]⟩ } := rfl

/-- Each add step of the scenario increments the tracker. -/
theorem addPhase_succ (t : ComponentType) (n : Nat) :
    addPhase t (n + 1) = ComponentsRaritySorter.increment (addPhase t n) t := rfl

/-- Disabling the single enabled T component moves it and decrements. -/
theorem disableComponent_single (u : String) (t : ComponentType) (m : RarityMap) :
    Entity.disableComponent { uuid := u, components := ⟨[t]⟩ } t m =
      .ok ({ uuid := u, components := ⟨[]⟩, disabledComponents := ⟨[t]⟩ },
           ComponentsRaritySorter.decrement m t) := by
  unfold Entity.disableComponent
  have hget : ComponentCollection.get ⟨[t]⟩ t = some t := by
    simp [ComponentCollection.get, List.find?]
  rw [hget]
  simp [ComponentCollection.del, ComponentCollection.set, hget, List.filter]

/-- The disable step of the scenario decrements the tracker. -/
theorem disablePhase_eq (t : ComponentType) (N : Nat) :
    disablePhase t N = ComponentsRaritySorter.decrement (addPhase t N) t := by
  unfold disablePhase
  rw [addedEntity_eq, disableComponent_single]

/-- The disabling holder ends with T in its disabled collection. -/
theorem disabledEntity_eq (t : ComponentType) (N : Nat) :
    disabledEntity t N =
      { uuid := toString 0, components := ⟨[]⟩, disabledComponents := ⟨[t]⟩ } := by
  unfold disabledEntity
  rw [addedEntity_eq, disableComponent_single]

/-- Removing T from an enabled holder decrements the tracker. -/
theorem removeStep_added (t : ComponentType) (n : Nat) (m : RarityMap) :
    removeStep (addedEntity t n) t m = ComponentsRaritySorter.decrement m t := by
  rw [addedEntity_eq]
  unfold removeStep Entity.removeComponent
  have hhas : ComponentCollection.has ⟨[t]⟩ t = true := by
    simp [ComponentCollection.has, ComponentCollection.get, List.find?]
  rw [if_pos hhas]

/-- Removing T from the disabled holder also decrements the tracker. -/
theorem removeStep_disabled (t : ComponentType) (N : Nat) (m : RarityMap) :
    removeStep (disabledEntity t N) t m = ComponentsRaritySorter.decrement m t := by
  rw [disabledEntity_eq]
  unfold removeStep Entity.removeComponent
  have hhas : ComponentCollection.has ⟨[t]⟩ t = true := by
    simp [ComponentCollection.has, ComponentCollection.get, List.find?]
  have hnone : ComponentCollection.has (⟨[]⟩ : ComponentCollection) t = false := rfl
  rw [hnone]
  simp [hhas]

/-- The tracker reads N after the N adds. -/
theorem addPhase_rarity (t : ComponentType) : ∀ N : Nat,
    ComponentsRaritySorter.rarity (addPhase t N) t = N := by
  intro N
  induction N with
  | zero => rfl
  | succ n ih => rw [addPhase_succ, rarity_increment, ih]

/-- After enough decrements the entry is gone: either the entry is already
absent, or at least one decrement remains and they cover the rarity. -/
theorem removeLoop_kills (t : ComponentType) : ∀ (k : Nat) (m : RarityMap),
    (m.has t = false ∨ (ComponentsRaritySorter.rarity m t ≤ k ∧ 1 ≤ k)) →
    (removeLoop t k m).has t = false := by
  intro k
  induction k with
  | zero =>
    intro m h
    rcases h with h | ⟨_, h1⟩
    · exact h
    · omega
  | succ n ih =>
    intro m h
    show (removeLoop t n (removeStep (addedEntity t (n + 1)) t m)).has t = false
    rw [removeStep_added]
    by_cases hr : ComponentsRaritySorter.rarity m t ≤ 1
    · exact ih _ (Or.inl (decrement_has_false m t hr))
    · rcases h with hfalse | ⟨hle, _⟩
      · exact absurd (rarity_zero_of_has_false m t hfalse) (by omega)
      · refine ih _ (Or.inr ⟨?_, by omega⟩)
        rw [rarity_decrement]
        omega

/-- C5.  Starting from an empty tracker, after N distinct entities each add
a component of type T enabled, rarity(T) = N; after one of them disables
its T component, rarity(T) = N - 1; and after every entity has removed its
T component, rarity(T) = 0 and T is absent from the tracker's map. -/
theorem c5_rarity_scenario (t : ComponentType) (N : Nat) (h : 1 ≤ N) :
    ComponentsRaritySorter.rarity (addPhase t N) t = N ∧
    ComponentsRaritySorter.rarity (disablePhase t N) t = N - 1 ∧
    ComponentsRaritySorter.rarity (removePhase t N) t = 0 ∧
    (removePhase t N).has t = false := by
  have h1 := addPhase_rarity t N
  have h2 : ComponentsRaritySorter.rarity (disablePhase t N) t = N - 1 := by
    rw [disablePhase_eq, rarity_decrement, h1]
  have h4 : (removePhase t N).has t = false := by
    unfold removePhase
    rw [removeStep_disabled]
    cases hN : N with
    | zero => omega
    | succ n =>
      cases n with
      | zero =>
        refine removeLoop_kills t 0 _ (Or.inl ?_)
        refine decrement_has_false _ t ?_
        rw [← hN, h2]
        omega
      | succ p =>
        refine removeLoop_kills t (p + 1) _ (Or.inr ⟨?_, by omega⟩)
        rw [← hN, rarity_decrement, h2]
        omega
  exact ⟨h1, h2, rarity_zero_of_has_false _ t h4, h4⟩

/-- C5, witness at N = 3. -/
theorem c5_rarity_scenario_witness :
    ComponentsRaritySorter.rarity (addPhase 7 3) 7 = 3 ∧
    ComponentsRaritySorter.rarity (disablePhase 7 3) 7 = 2 ∧
    ComponentsRaritySorter.rarity (removePhase 7 3) 7 = 0 ∧
    (removePhase 7 3).has 7 = false :=
  c5_rarity_scenario 7 3 (by decide)

/-- One pending invocation descriptor as `execute()` consumes it: the unit's
identity, the value its `canExecute()` returns, and whether its `run`
returns a pending `Promise`. -/
structure QItem where
  systemName : String
  canExecute : Bool
  isAsync : Bool
deriving Repr, DecidableEq

/-- External events delivered while `execute()` is suspended (the only
points where other code runs under the single-threaded JavaScript
semantics): a `stop()` / `pause()` / `resume()` call, or the settlement of
the currently awaited unit's promise. -/
inductive QEvent
  | stop
  | pause
  | resume
  | settle
deriving Repr, DecidableEq

/-- The mutable queue state observed by `execute()` and `stop()`:
`_currentSystem`, `_isPaused` and `_abortController` (`some aborted` when a
controller object is present, `none` when the field is null).  The pending
`_queue` array is the explicit list argument of `execLoop`; `stop()` clears
it, which is unobservable inside `execute` because every post-stop path
terminates the loop before the next length check. -/
structure QState where
  currentSystem : Option String
  isPaused : Bool
  abortCtl : Option Bool
deriving Repr, DecidableEq

/-- The errors `execute()` can raise: the internal stop sentinel
(`'Queue execution was stopped'`), the async-prohibited error, and the
TypeError from dereferencing the nulled `_abortController`. -/
inductive JsError
  | stopSentinel
  | asyncProhibited (systemName queueName : String)
  | typeError
deriving Repr, DecidableEq

/-- The `message` property the catch clause compares on. -/
def JsError.message : JsError → String
  | .stopSentinel => "Queue execution was stopped"
  | .asyncProhibited s q =>
      "Execution of asynchronous system '" ++ s ++ "' in queue '" ++ q ++ "' is prohibited!"
  | .typeError => "Cannot read properties of null (reading 'signal')"

/-- Embeds `ExecutionQueue.stop()` as it acts on the modelled state: it
clears the pending array, calls the current unit's `forceStop` hook (no
modelled state), aborts the controller if present and then nulls the
`_abortController` field. -/
def applyStop (st : QState) : QState := { st with abortCtl := none }

/-- Embeds the suspension on `waitForResume()`: consume events until a
`resume()` arrives; `stop()` during the pause clears the queue and nulls
the abort controller but does not release the suspension.  `none` means
the schedule ended with the queue still suspended. -/
def waitResume : List QEvent → QState → Option (List QEvent) × QState
  | [], st => (none, st)
  | e :: rest, st =>
    match e with
    | .resume => (some rest, { st with isPaused := false })
    | .stop => waitResume rest (applyStop st)
    | .pause => waitResume rest st
    | .settle => waitResume rest st

/-- Possible endings of the `Promise.race` between the unit's promise and
the abort rejection. -/
inductive RaceOutcome
  | settled
  | stopped
  | hung
deriving Repr, DecidableEq

/-- Embeds the suspension on
`Promise.race([returnType, abort-rejection])`: a `settle` resolves the
race, a `stop()` fires the abort listener which rejects with the stop
sentinel, and `pause()` / `resume()` merely flip the flag. -/
def raceAwait : List QEvent → QState → RaceOutcome × List QEvent × QState
  | [], st => (.hung, [], st)
  | e :: rest, st =>
    match e with
    | .settle => (.settled, rest, st)
    | .stop => (.stopped, rest, applyStop st)
    | .pause => raceAwait rest { st with isPaused := true }
    | .resume => raceAwait rest { st with isPaused := false }

/-- How the `while` loop of `execute()` ends before the catch clause. -/
inductive LoopResult
  | finished
  | raised (e : JsError)
  | hung
deriving Repr, DecidableEq

/-- Embeds the `while` loop of `ExecutionQueue.execute()` (the part inside
`try`), one iteration per pending item, in source order: pause wait, abort
check (a nulled controller raises a TypeError here), shift, `canExecute`
gate, context binding and run with `_currentSystem` bookkeeping, the
async race or the async-prohibited throw (`run` is invoked before the
promise check, so the unit appears in the trace either way), and the
`_currentSystem = null` reset after a completed item.  The extra
`List String` accumulates the names of units whose `run` was invoked, in
invocation order. -/
def execLoop (asyncAlowed : Bool) (queueName : String) :
    List QItem → List QEvent → QState → List String → LoopResult × QState × List String
  | [], _evs, st, tr => (.finished, st, tr)
  | item :: rest, evs, st, tr =>
    match (if st.isPaused then waitResume evs st else (some evs, st)) with
    | (none, st1) => (.hung, st1, tr)
    | (some evs1, st1) =>
      match st1.abortCtl with
      | none => (.raised .typeError, st1, tr)
      | some aborted =>
        if aborted then (.finished, st1, tr)
        else
          if item.canExecute then
            let st2 := { st1 with currentSystem := some item.systemName }
            let tr2 := tr ++ [item.systemName]
            if item.isAsync then
              if asyncAlowed then
                match raceAwait evs1 st2 with
                | (.settled, evs2, st3) =>
                  execLoop asyncAlowed queueName rest evs2 { st3 with currentSystem := none } tr2
                | (.stopped, _evs2, st3) => (.raised .stopSentinel, st3, tr2)
                | (.hung, _evs2, st3) => (.hung, st3, tr2)
              else
                (.raised (.asyncProhibited item.systemName queueName), st2, tr2)
            else
              execLoop asyncAlowed queueName rest evs1 { st2 with currentSystem := none } tr2
          else execLoop asyncAlowed queueName rest evs1 st1 tr

/-- How the promise returned by `execute()` settles: fulfilled, rejected,
or never (still suspended when the schedule ends). -/
inductive ExecOutcome
  | fulfilled
  | rejected (e : JsError)
  | pending
deriving Repr, DecidableEq

/-- Embeds `ExecutionQueue.execute(asyncAlowed)`: allocate a fresh
`AbortController`, run the loop, and apply the catch clause, which turns
an error whose message is exactly the stop sentinel's into a normal return
and rethrows anything else. -/
def ExecutionQueue.execute (asyncAlowed : Bool) (queueName : String) (queue : List QItem)
    (isPausedInit : Bool) (evs : List QEvent) : ExecOutcome × QState × List String :=
  match execLoop asyncAlowed queueName queue evs
      { currentSystem := none, isPaused := isPausedInit, abortCtl := some false } [] with
  | (.finished, st, tr) => (.fulfilled, st, tr)
  | (.raised e, st, tr) =>
    if e.message == "Queue execution was stopped" then (.fulfilled, st, tr)
    else (.rejected e, st, tr)
  | (.hung, st, tr) => (.pending, st, tr)

/-- One registered queue of the controller. -/
structure CtrlQueue where
  id : String
  name : String
  items : List QItem
  isPaused : Bool
deriving Repr, DecidableEq

/-- Embeds `ExecutionController`: the `id → ExecutionQueue` registry in
insertion order. -/
structure ExecutionController where
  queues : List CtrlQueue
deriving Repr, DecidableEq

/-- `ExecutionController.hasQueue`. -/
def ExecutionController.hasQueue (c : ExecutionController) (executionId : String) : Bool :=
  (c.queues.find? (fun q => q.id == executionId)).isSome

/-- `Map.prototype.delete` on the registry. -/
def ExecutionController.removeQueue (c : ExecutionController) (executionId : String) :
    ExecutionController :=
  ⟨c.queues.filter (fun q => q.id != executionId)⟩

/-- How `ExecutionController.run` settles for its caller. -/
inductive RunResult
  | fulfilled
  | rejected (e : JsError)
  | thrownNotFound
  | pending
deriving Repr, DecidableEq

/-- Embeds `ExecutionController.run(queueId, asyncAlowed)`: throws
`QueueNotFoundError` for an unknown id; otherwise awaits the queue's
`execute` and deletes the registry entry only after it fulfills — a
rejection propagates and skips the deletion. -/
def ExecutionController.run (c : ExecutionController) (queueId : String) (asyncAlowed : Bool)
    (evs : List QEvent) : RunResult × ExecutionController :=
  match c.queues.find? (fun q => q.id == queueId) with
  | none => (.thrownNotFound, c)
  | some q =>
    match ExecutionQueue.execute asyncAlowed q.name q.items q.isPaused evs with
    | (.fulfilled, _, _) => (.fulfilled, c.removeQueue queueId)
    | (.rejected e, _, _) => (.rejected e, c)
    | (.pending, _, _) => (.pending, c)

/-- Embeds `ExecutionController.stop(executionId)`: when the id is
registered, stop the queue (a `stop` event in that run's schedule) and
delete the registry entry immediately; unknown ids are a no-op. -/
def ExecutionController.stop (c : ExecutionController) (executionId : String) :
    ExecutionController :=
  match c.queues.find? (fun q => q.id == executionId) with
  | none => c
  | some _ => c.removeQueue executionId

/-- One configuration pushed by a group's `setup(chain, data)`
(`IGroupOption` in the source): every field beyond the unit constructor and
its data may be left unset.  `repeatCount` embeds the source's `repeat`
field (a Lean keyword); `canExecute` is abstracted to the constant value
the callback returns. -/
structure IGroupOption where
  id : String
  system : String
  data : Option Nat
  withDisabled : Option Bool := none
  includes : Option (List ComponentType) := none
  excludes : Option (List ComponentType) := none
  repeatCount : Option Nat := none
  canExecute : Option Bool := none
deriving Repr, DecidableEq

/-- A fully defaulted configuration (`IGroupSortedOption`). -/
structure IGroupSortedOption where
  id : String
  system : String
  data : Option Nat
  withDisabled : Bool
  includes : List ComponentType
  excludes : List ComponentType
  repeatCount : Nat
  canExecute : Bool
deriving Repr, DecidableEq

/-- The defaulting pass of `SystemGroup.sorted`: `withDisabled=false`,
`includes=[]`, `excludes=[]`, `repeat=1` when falsy (unset or zero),
`canExecute=()=>true` when unset. -/
def applyDefaults (p : IGroupOption) : IGroupSortedOption :=
  { id := p.id
  , system := p.system
  , data := p.data
  , withDisabled := p.withDisabled.getD false
  , includes := p.includes.getD []
  , excludes := p.excludes.getD []
  , repeatCount := match p.repeatCount with
      | none => 1
      | some 0 => 1
      | some k => k
  , canExecute := p.canExecute.getD true }

/-- Embeds `SystemGroup` (src/unnamed/part_008): its uuid and the provider
list its `setup(chain, data)` builds for the triggering data (`sorted`
clears the chain and re-runs `setup` per invocation; the data dependence is
abstracted into the stored list). -/
structure SystemGroup where
  uuid : String
  setupProviders : List IGroupOption
deriving Repr, DecidableEq

/-- `SystemGroup.sorted(data)`: the chain's providers with defaults filled
in, in chain order. -/
def SystemGroup.sorted (g : SystemGroup) : List IGroupSortedOption :=
  g.setupProviders.map applyDefaults

/-- One flattened queue descriptor (`IQueueItem`): the spread provider plus
the group id, the queue (execution) id, the provider's data and the cached
unit instance (the systems container returns the per-constructor singleton,
modelled by the constructor token itself). -/
structure IQueueItem where
  option : IGroupSortedOption
  groupId : String
  data : Option Nat
  executionId : String
  system : String
deriving Repr, DecidableEq

/-- Builds one queue descriptor from a defaulted provider. -/
def mkQueueItem (groupId executionId : String) (p : IGroupSortedOption) : IQueueItem :=
  { option := p, groupId := groupId, data := p.data, executionId := executionId,
    system := p.system }

/-- The inner `for (let i = 0; i < provider.repeat; i++) queue.push(...)`
loop. -/
def pushRepeat (queue : List IQueueItem) (it : IQueueItem) : Nat → List IQueueItem
  | 0 => queue
  | k + 1 => pushRepeat (queue ++ [it]) it k

/-- Embeds `ExecutionQueue.getExecutionQueue`: for each group in supplied
order, for each sorted provider in order, push `repeat` copies of the
descriptor tagged with the group's uuid and this queue's id. -/
def ExecutionQueue.getExecutionQueue (executionId : String) (groups : List SystemGroup) :
    List IQueueItem :=
  groups.foldl (fun queue g =>
    (g.sorted).foldl
      (fun q p => pushRepeat q (mkQueueItem g.uuid executionId p) p.repeatCount) queue) []

/-- `pushRepeat` appends `k` copies. -/
theorem pushRepeat_eq (it : IQueueItem) : ∀ (k : Nat) (queue : List IQueueItem),
    pushRepeat queue it k = queue ++ List.replicate k it := by
  intro k
  induction k with
  | zero => intro queue; simp [pushRepeat]
  | succ n ih =>
    intro queue
    rw [pushRepeat, ih, List.replicate_succ, List.append_assoc]
    rfl

/-- An append-accumulating fold is the accumulator followed by the joined
mapped lists. -/
theorem foldl_append_join {α β : Type} (f : β → List α) : ∀ (l : List β) (init : List α),
    l.foldl (fun q p => q ++ f p) init = init ++ (l.map f).flatten := by
  intro l
  induction l with
  | nil => intro init; simp
  | cons b t ih =>
    intro init
    rw [List.foldl_cons, ih, List.map_cons, List.flatten_cons, List.append_assoc]

/-- C7.  The flattened queue is the concatenation, in supplied group order,
of each group's `sorted(data)` list, each configuration contributing
`repeat` consecutive identical descriptors tagged with its group's uuid and
the queue's id; a configured `repeat = k` (k ≥ 1) survives defaulting as
exactly k; and concretely, for G1 holding units A,B and G2 holding unit C
(all `canExecute` defaulted to true, all synchronous), both the built queue
and the actual invocation trace of `execute` are A,B,C. -/
theorem c7_queue_flattening :
    (∀ (executionId : String) (groups : List SystemGroup),
      ExecutionQueue.getExecutionQueue executionId groups =
        (groups.map (fun g =>
          ((g.sorted).map (fun p =>
            List.replicate p.repeatCount (mkQueueItem g.uuid executionId p))).flatten)).flatten) ∧
    (∀ (p : IGroupOption) (k : Nat), k ≠ 0 →
      (applyDefaults { p with repeatCount := some k }).repeatCount = k) ∧
    ((ExecutionQueue.getExecutionQueue "q"
        [⟨"g1", [⟨"ia", "A", none, none, none, none, none, none⟩,
                 ⟨"ib", "B", none, none, none, none, none, none⟩]⟩,
         ⟨"g2", [⟨"ic", "C", none, none, none, none, none, none⟩]⟩]).map
        (fun it => it.system) = ["A", "B", "C"]) ∧
    ((ExecutionQueue.execute true "q"
        ((ExecutionQueue.getExecutionQueue "q"
          [⟨"g1", [⟨"ia", "A", none, none, none, none, none, none⟩,
                   ⟨"ib", "B", none, none, none, none, none, none⟩]⟩,
           ⟨"g2", [⟨"ic", "C", none, none, none, none, none, none⟩]⟩]).map
          (fun it => QItem.mk it.system it.option.canExecute false))
        false []).2.2 = ["A", "B", "C"]) := by
  refine ⟨?_, ?_, rfl, rfl⟩
  · intro executionId groups
    unfold ExecutionQueue.getExecutionQueue
    simp only [pushRepeat_eq, foldl_append_join]
    rw [List.nil_append]
  · intro p k hk
    cases k with
    | zero => exact absurd rfl hk
    | succ n => rfl

/-- C7, witness for the repeat-defaulting conjunct at k = 3. -/
theorem c7_queue_flattening_witness :
    (applyDefaults { id := "i", system := "S", data := none, repeatCount := some 3 }).repeatCount
      = 3 :=
  c7_queue_flattening.2.1 { id := "i", system := "S", data := none, repeatCount := some 3 } 3
    (by decide)

/-- The async-prohibited message never equals the stop sentinel's message,
so the catch clause rethrows it. -/
theorem asyncProhibited_message_ne (s q : String) :
    (JsError.asyncProhibited s q).message ≠ "Queue execution was stopped" := by
  intro h
  have hl := congrArg String.length h
  have h1 : ("Execution of asynchronous system '" : String).length = 34 := rfl
  have h2 : ("' in queue '" : String).length = 12 := rfl
  have h3 : ("' is prohibited!" : String).length = 16 := rfl
  have h4 : ("Queue execution was stopped" : String).length = 27 := rfl
  simp [JsError.message, String.length_append, h1, h2, h3, h4] at hl
  omega

/-- With async prohibited and no initial pause, the run is fully
synchronous: the loop raises on the first reached unit that both passes its
`canExecute` gate and returns a promise, and finishes otherwise. -/
theorem execLoop_noasync (qn : String) : ∀ (queue : List QItem) (evs : List QEvent)
    (cs : Option String) (tr : List String),
    (execLoop false qn queue evs
      { currentSystem := cs, isPaused := false, abortCtl := some false } tr).1 =
      (match queue.find? (fun i => i.canExecute && i.isAsync) with
       | some it => LoopResult.raised (.asyncProhibited it.systemName qn)
       | none => LoopResult.finished) := by
  intro queue
  induction queue with
  | nil => intro evs cs tr; rfl
  | cons item rest ih =>
    intro evs cs tr
    cases hc : item.canExecute with
    | false => simpa [execLoop, List.find?, hc] using ih evs cs tr
    | true =>
      cases ha : item.isAsync with
      | false => simpa [execLoop, List.find?, hc, ha] using ih evs none (tr ++ [item.systemName])
      | true => simp [execLoop, List.find?, hc, ha]

/-- Unfolding of `ExecutionController.run` once the queue is found. -/
theorem run_of_find (c : ExecutionController) (q : CtrlQueue) (qid : String) (aa : Bool)
    (evs : List QEvent) (hfind : c.queues.find? (fun x => x.id == qid) = some q) :
    c.run qid aa evs =
      (match ExecutionQueue.execute aa q.name q.items q.isPaused evs with
       | (.fulfilled, _, _) => (RunResult.fulfilled, c.removeQueue qid)
       | (.rejected e, _, _) => (RunResult.rejected e, c)
       | (.pending, _, _) => (RunResult.pending, c)) := by
  unfold ExecutionController.run
  rw [hfind]

/-- C8, amended.  With `asyncAllowed = false`, execution rejects with
`AsyncProhibitedError` naming the offending unit and the queue — and the
error propagates out of `execute()` and `ExecutionController.run` rather
than being absorbed — provided some unit that passes its `canExecute()`
gate returns a pending result (the first such unit is named); an async
unit whose `canExecute()` returns false is skipped and triggers nothing
(see the counterexample). -/
theorem c8_async_prohibition_amended (qn : String) (queue : List QItem) (evs : List QEvent)
    (it : QItem) (h : queue.find? (fun i => i.canExecute && i.isAsync) = some it) :
    ((ExecutionQueue.execute false qn queue false evs).1 =
      ExecOutcome.rejected (.asyncProhibited it.systemName qn)) ∧
    ((JsError.asyncProhibited it.systemName qn).message =
      "Execution of asynchronous system '" ++ it.systemName ++ "' in queue '" ++ qn ++
        "' is prohibited!") ∧
    (∀ (c : ExecutionController) (q : CtrlQueue),
      c.queues.find? (fun x => x.id == q.id) = some q → q.items = queue → q.name = qn →
      q.isPaused = false →
      (c.run q.id false evs).1 = RunResult.rejected (.asyncProhibited it.systemName qn)) := by
  have hmain : (ExecutionQueue.execute false qn queue false evs).1 =
      ExecOutcome.rejected (.asyncProhibited it.systemName qn) := by
    unfold ExecutionQueue.execute
    have hl := execLoop_noasync qn queue evs none []
    rw [h] at hl
    rcases hres : execLoop false qn queue evs
        { currentSystem := none, isPaused := false, abortCtl := some false } [] with ⟨lr, st, tr⟩
    rw [hres] at hl
    simp only at hl
    subst hl
    simp [beq_eq_false_iff_ne.mpr (asyncProhibited_message_ne it.systemName qn)]
  refine ⟨hmain, rfl, ?_⟩
  intro c q hfind hitems hname hpause
  rw [run_of_find c q q.id false evs hfind, hitems, hname, hpause]
  rcases hex : ExecutionQueue.execute false qn queue false evs with ⟨out, st, tr⟩
  have hout : out = ExecOutcome.rejected (.asyncProhibited it.systemName qn) := by
    rw [← hmain, hex]
  subst hout
  rfl

/-- C8, counterexample to the claim as stated: a queue that does contain a
unit whose run would return a pending result, but whose `canExecute()`
returns false — `execute(false)` skips it and fulfills instead of
rejecting. -/
theorem c8_counterexample :
    ((ExecutionQueue.execute false "q"
        [{ systemName := "A", canExecute := false, isAsync := true }] false []).1 =
      ExecOutcome.fulfilled) ∧
    (([{ systemName := "A", canExecute := false, isAsync := true }] : List QItem).any
        (fun i => i.isAsync) = true) :=
  ⟨rfl, rfl⟩

/-- C8, witness: a synchronous unit followed by an executable asynchronous
one rejects naming the asynchronous unit. -/
theorem c8_async_prohibition_amended_witness :
    (ExecutionQueue.execute false "mainq"
      [{ systemName := "S1", canExecute := true, isAsync := false },
       { systemName := "S2", canExecute := true, isAsync := true }] false []).1 =
      ExecOutcome.rejected (.asyncProhibited "S2" "mainq") :=
  (c8_async_prohibition_amended "mainq"
    [{ systemName := "S1", canExecute := true, isAsync := false },
     { systemName := "S2", canExecute := true, isAsync := true }] []
    { systemName := "S2", canExecute := true, isAsync := true } rfl).1

/-- C9.  When a registered queue's `execute` rejects,
`ExecutionController.run` rejects with the same error and the registry is
left untouched — `hasQueue` still answers true; the registry deletion
happens only when `execute` fulfills. -/
theorem c9_rejection_keeps_registry (c : ExecutionController) (q : CtrlQueue) (aa : Bool)
    (evs : List QEvent)
    (hfind : c.queues.find? (fun x => x.id == q.id) = some q) :
    (∀ e : JsError,
      (ExecutionQueue.execute aa q.name q.items q.isPaused evs).1 = ExecOutcome.rejected e →
      c.run q.id aa evs = (RunResult.rejected e, c) ∧
      ((c.run q.id aa evs).2).hasQueue q.id = true) ∧
    ((ExecutionQueue.execute aa q.name q.items q.isPaused evs).1 = ExecOutcome.fulfilled →
      (c.run q.id aa evs).2 = c.removeQueue q.id) := by
  have hrw := run_of_find c q q.id aa evs hfind
  have hhas : c.hasQueue q.id = true := by
    unfold ExecutionController.hasQueue
    rw [hfind]
    rfl
  rcases hex : ExecutionQueue.execute aa q.name q.items q.isPaused evs with ⟨out, st, tr⟩
  rw [hex] at hrw
  constructor
  · intro e hrej
    have hout : out = ExecOutcome.rejected e := hrej
    subst hout
    rw [hrw]
    exact ⟨rfl, hhas⟩
  · intro hful
    have hout : out = ExecOutcome.fulfilled := hful
    subst hout
    rw [hrw]

/-- C9, witness: a queue with one executable asynchronous unit run with
`asyncAllowed = false` rejects and stays registered. -/
theorem c9_rejection_keeps_registry_witness :
    ExecutionController.run
        ⟨[{ id := "id1", name := "mainq",
            items := [{ systemName := "S", canExecute := true, isAsync := true }],
            isPaused := false }]⟩ "id1" false [] =
      (RunResult.rejected (.asyncProhibited "S" "mainq"),
        ⟨[{ id := "id1", name := "mainq",
            items := [{ systemName := "S", canExecute := true, isAsync := true }],
            isPaused := false }]⟩) ∧
    (ExecutionController.hasQueue
      (ExecutionController.run
        ⟨[{ id := "id1", name := "mainq",
            items := [{ systemName := "S", canExecute := true, isAsync := true }],
            isPaused := false }]⟩ "id1" false []).2 "id1" = true) :=
  (c9_rejection_keeps_registry
    ⟨[{ id := "id1", name := "mainq",
        items := [{ systemName := "S", canExecute := true, isAsync := true }],
        isPaused := false }]⟩
    { id := "id1", name := "mainq",
      items := [{ systemName := "S", canExecute := true, isAsync := true }],
      isPaused := false } false [] rfl).1 (.asyncProhibited "S" "mainq") rfl

/-- Waiting for resume never touches `_currentSystem`. -/
theorem waitResume_state : ∀ (evs : List QEvent) (st : QState),
    ((waitResume evs st).2).currentSystem = st.currentSystem := by
  intro evs
  induction evs with
  | nil => intro st; rfl
  | cons e rest ih =>
    intro st
    cases e with
    | resume => rfl
    | stop => exact ih (applyStop st)
    | pause => exact ih st
    | settle => exact ih st

/-- The race suspension never touches `_currentSystem`. -/
theorem raceAwait_state : ∀ (evs : List QEvent) (st : QState),
    ((raceAwait evs st).2.2).currentSystem = st.currentSystem := by
  intro evs
  induction evs with
  | nil => intro st; rfl
  | cons e rest ih =>
    intro st
    cases e with
    | settle => rfl
    | stop => rfl
    | pause => exact ih { st with isPaused := true }
    | resume => exact ih { st with isPaused := false }

/-- When the loop exits through normal completion (`finished`), the
currently-running-unit reference is null. -/
theorem execLoop_finished_cs (aa : Bool) (qn : String) : ∀ (queue : List QItem)
    (evs : List QEvent) (st : QState) (tr : List String),
    st.currentSystem = none →
    ((execLoop aa qn queue evs st tr).1 = LoopResult.finished →
      ((execLoop aa qn queue evs st tr).2.1).currentSystem = none) := by
  intro queue
  induction queue with
  | nil => intro evs st tr h _; exact h
  | cons item rest ih =>
    intro evs st tr h
    rw [execLoop]
    split
    next st1 heq =>
      intro hfin
      simp at hfin
    next evs1 st1 heq =>
      have hcs1 : st1.currentSystem = none := by
        by_cases hp : st.isPaused
        · rw [if_pos hp] at heq
          have hpres := waitResume_state evs st
          rw [heq] at hpres
          rw [hpres, h]
        · rw [if_neg hp] at heq
          cases heq
          exact h
      split
      · intro hfin
        simp at hfin
      · split
        · intro _
          exact hcs1
        · split
          · split
            · split
              · dsimp only
                split
                next ro evs2 st3 hr =>
                  exact ih evs2 _ _ rfl
                next ro evs2 st3 hr =>
                  intro hfin
                  simp at hfin
                next ro evs2 st3 hr =>
                  intro hfin
                  simp at hfin
              · intro hfin
                simp at hfin
            · exact ih evs1 _ _ rfl
          · exact ih evs1 st1 tr hcs1

/-- C6, amended.  When `execute()` settles through normal completion of its
loop, the currently-running-unit reference is null afterwards; but a run
terminated by `stop()` aborting an in-flight asynchronous unit settles
(fulfilled, the sentinel being absorbed) with `_currentSystem` still
pointing at the aborted unit, because the `_currentSystem = null` statement
sits after the await and is skipped when the race rejects. -/
theorem c6_current_system_amended :
    (∀ (aa : Bool) (qn : String) (queue : List QItem) (isPausedInit : Bool) (evs : List QEvent),
      (execLoop aa qn queue evs
        { currentSystem := none, isPaused := isPausedInit, abortCtl := some false } []).1 =
        LoopResult.finished →
      ((ExecutionQueue.execute aa qn queue isPausedInit evs).2.1).currentSystem = none) ∧
    ((ExecutionQueue.execute true "q"
        [{ systemName := "A", canExecute := true, isAsync := true }] false [.stop]).1 =
        ExecOutcome.fulfilled ∧
     ((ExecutionQueue.execute true "q"
        [{ systemName := "A", canExecute := true, isAsync := true }]
        false [.stop]).2.1).currentSystem = some "A") := by
  constructor
  · intro aa qn queue ip evs hfin
    unfold ExecutionQueue.execute
    have hcs := execLoop_finished_cs aa qn queue evs
      { currentSystem := none, isPaused := ip, abortCtl := some false } [] rfl
    rcases hres : execLoop aa qn queue evs
        { currentSystem := none, isPaused := ip, abortCtl := some false } [] with ⟨lr, st, tr⟩
    rw [hres] at hfin hcs
    have hlr : lr = LoopResult.finished := hfin
    subst hlr
    exact hcs rfl
  · exact ⟨rfl, rfl⟩

/-- C6, counterexample to the claim as stated: `stop()` fired while the
queue awaits an asynchronous unit makes `execute()` settle (fulfilled, the
stop being absorbed) with `_currentSystem` not null. -/
theorem c6_counterexample :
    ((ExecutionQueue.execute true "q"
        [{ systemName := "A", canExecute := true, isAsync := true }] false [.stop]).1 =
      ExecOutcome.fulfilled) ∧
    ((ExecutionQueue.execute true "q"
        [{ systemName := "A", canExecute := true, isAsync := true }]
        false [.stop]).2.1).currentSystem ≠ none := by
  exact ⟨rfl, by decide⟩

/-- C6, witness: a one-item synchronous queue completes with the reference
cleared. -/
theorem c6_current_system_amended_witness :
    ((ExecutionQueue.execute true "wq"
        [{ systemName := "W", canExecute := true, isAsync := false }] false []).2.1).currentSystem
      = none :=
  c6_current_system_amended.1 true "wq"
    [{ systemName := "W", canExecute := true, isAsync := false }] false [] rfl

/-- Deleting an id from the registry makes `hasQueue` false for it. -/
theorem hasQueue_removeQueue (c : ExecutionController) (qid : String) :
    (c.removeQueue qid).hasQueue qid = false := by
  have hnone : (c.queues.filter (fun q => q.id != qid)).find? (fun q => q.id == qid) = none := by
    rw [List.find?_eq_none]
    intro x hx
    have hne := List.of_mem_filter hx
    simp only [bne_iff_ne, ne_eq] at hne
    simp [hne]
  simp [ExecutionController.hasQueue, ExecutionController.removeQueue, hnone]

/-- The raw loop never hands the stop sentinel to the caller: the catch
clause of `execute` turns it into a normal return. -/
theorem execute_never_rejects_sentinel (aa : Bool) (qn : String) (queue : List QItem)
    (ip : Bool) (evs : List QEvent) :
    (ExecutionQueue.execute aa qn queue ip evs).1 ≠ ExecOutcome.rejected JsError.stopSentinel := by
  unfold ExecutionQueue.execute
  rcases hres : execLoop aa qn queue evs
      { currentSystem := none, isPaused := ip, abortCtl := some false } [] with ⟨lr, st, tr⟩
  cases lr with
  | finished => simp
  | hung => simp
  | raised e =>
    dsimp only
    split
    · simp
    · next hmsg =>
      intro hcontra
      simp only [ExecOutcome.rejected.injEq] at hcontra
      subst hcontra
      exact hmsg rfl

/-- C3, amended.  The internal stop sentinel is always caught inside
`execute()` and converted into a normal return — `execute` never rejects
with it, and in particular a `stop()` that aborts an in-flight
asynchronous unit leaves the run fulfilled — and the controller's
`stop(id)` removes the queue from its registry immediately.  However,
`stop()` can still cause a rejection indirectly: it nulls the
`_abortController`, and if the queue was paused when `stop()` fired and is
later resumed, the loop dereferences the nulled controller and `execute`
rejects with a TypeError (see the counterexample); without a resume the
paused run simply never settles. -/
theorem c3_stop_absorption_amended :
    (∀ (aa : Bool) (qn : String) (queue : List QItem) (ip : Bool) (evs : List QEvent),
      (ExecutionQueue.execute aa qn queue ip evs).1 ≠
        ExecOutcome.rejected JsError.stopSentinel) ∧
    (∀ (c : ExecutionController) (executionId : String),
      ((c.stop executionId).hasQueue executionId) = false) ∧
    ((ExecutionQueue.execute true "q"
        [{ systemName := "A", canExecute := true, isAsync := true }] false [QEvent.stop]).1 =
      ExecOutcome.fulfilled) := by
  refine ⟨execute_never_rejects_sentinel, ?_, rfl⟩
  intro c executionId
  unfold ExecutionController.stop
  cases hfind : c.queues.find? (fun q => q.id == executionId) with
  | none => simp [ExecutionController.hasQueue, hfind]
  | some q => exact hasQueue_removeQueue c executionId

/-- C3, counterexample to the claim as stated: the queue is paused when
`stop()` fires (clearing the queue and nulling the abort controller); a
subsequent `resume()` releases the loop, which dereferences the nulled
`_abortController` — `execute()` rejects with a TypeError, so a stop on a
paused queue is not absorbed. -/
theorem c3_counterexample :
    (ExecutionQueue.execute true "q"
      [{ systemName := "A", canExecute := true, isAsync := false }] true
      [QEvent.stop, QEvent.resume]).1 = ExecOutcome.rejected JsError.typeError := by decide

/-- C3, witness: the sentinel-absorption conjunct applied to the concrete
stopped-while-awaiting run. -/
theorem c3_stop_absorption_amended_witness :
    (ExecutionQueue.execute true "q"
      [{ systemName := "A", canExecute := true, isAsync := true }] false [QEvent.stop]).1 ≠
      ExecOutcome.rejected JsError.stopSentinel :=
  c3_stop_absorption_amended.1 true "q"
    [{ systemName := "A", canExecute := true, isAsync := true }] false [QEvent.stop]
